import Mathlib

/-!
Verification of the rate-limiting / progress-streaming layer of the
RiftRewind project against its specification.

Part 1 embeds the frontend progress observer
(`src/frontend/components/ui/AnalysisProgress.tsx`) as an explicit state
machine: the component's React state is a record, and the three event
handlers (the fake-progress timer effect, the SSE `onmessage` handler and
the SSE `onerror` handler) become state-transition functions translated
line by line from the source.

Part 2 models, from the specification, the backend components whose
source is not part of the repository snapshot (Progress Broker, Quota
Limiter, Adaptive Backoff Limiter, Run-Scoped Memo Cache, job start).
-/

namespace RiftRewind

/-- One entry of `FAKE_PROGRESS_STEPS` in `AnalysisProgress.tsx`:
a simulated progress step with a percent, a message and a timer delay. -/
structure FakeStep where
  progress : Nat
  message : String
  delay : Nat
deriving Repr, DecidableEq

/-- The `FAKE_PROGRESS_STEPS` constant of `AnalysisProgress.tsx`
(lines 35–52), copied value for value. -/
def FAKE_PROGRESS_STEPS : List FakeStep :=
  [ ⟨5,  "Connecting to Riot API...", 5000⟩,
    ⟨10, "Loading profile data...", 6000⟩,
    ⟨15, "Validating summoner...", 5000⟩,
    ⟨20, "Fetching match history...", 7000⟩,
    ⟨30, "Downloading match details...", 8000⟩,
    ⟨40, "Processing game data...", 10000⟩,
    ⟨50, "Analyzing performance metrics...", 12000⟩,
    ⟨60, "Calculating champion stats...", 15000⟩,
    ⟨70, "Identifying playstyle patterns...", 18000⟩,
    ⟨75, "Selecting key matches...", 20000⟩,
    ⟨80, "Analyzing game timelines...", 25000⟩,
    ⟨85, "Preparing AI analysis...", 20000⟩,
    ⟨88, "Generating insights with Claude AI...", 30000⟩,
    ⟨92, "Finalizing personality analysis...", 20000⟩,
    ⟨95, "Compiling recommendations...", 15000⟩,
    ⟨98, "Almost there...", 10000⟩ ]

/-- The percent values of the simulated sequence. -/
def fakePercents : List Nat := FAKE_PROGRESS_STEPS.map (fun st => st.progress)

/-- The `ProgressUpdate` interface of `AnalysisProgress.tsx`: one parsed
SSE event `{step, progress, message, timestamp}`. -/
structure ProgressUpdate where
  step : String
  progress : Nat
  message : String
  timestamp : String
deriving Repr, DecidableEq

/-- The React state of the `AnalysisProgress` component
(`useState` hooks, lines 60–66), together with the connection status of
its `EventSource` and whether a reconnect timer is pending (local
variables of the SSE effect, lines 89–90). -/
structure ComponentState where
  progress : Nat
  currentStep : String
  message : String
  isComplete : Bool
  hasError : Bool
  useRealProgress : Bool
  fakeStepIndex : Nat
  sourceOpen : Bool
  reconnectScheduled : Bool
deriving Repr, DecidableEq

/-- The initial values of the `useState` hooks: progress 0, step
"profile", message "Starting analysis...", all flags false, fake index 0;
the `EventSource` is not yet open (the initial `connect` is deferred by
one second, line 137). -/
def initialState : ComponentState :=
  { progress := 0
    currentStep := "profile"
    message := "Starting analysis..."
    isComplete := false
    hasError := false
    useRealProgress := false
    fakeStepIndex := 0
    sourceOpen := false
    reconnectScheduled := false }

/-- A callback the component fires towards its parent:
`onComplete?()` or `onError?(data.message)`. -/
inductive CallbackCall where
  | completeCall : CallbackCall
  | errorCall : String → CallbackCall
deriving Repr, DecidableEq

/-- The fake-progress effect (lines 69–85): a no-op once real progress,
completion or error is seen; otherwise, if the fake index is still inside
`FAKE_PROGRESS_STEPS`, its timer sets the displayed progress and message
to the current fake step's values and advances the index; past the end of
the list it holds (the code returns, keeping 98%). -/
def fakeTick (s : ComponentState) : ComponentState :=
  if s.useRealProgress || s.isComplete || s.hasError then s
  else
    match FAKE_PROGRESS_STEPS.get? s.fakeStepIndex with
    | none => s
    | some st =>
        { s with progress := st.progress
                 message := st.message
                 fakeStepIndex := s.fakeStepIndex + 1 }

/-- The SSE `onmessage` handler (lines 97–122): on a parsed update it
switches to real progress, overwrites progress/step/message with the
event's fields, and on `step == "complete"` marks completion, closes the
source and schedules `onComplete?`; on `step == "error"` marks the error,
closes the source and calls `onError?(data.message)`. The handler can
only fire while the source is open. -/
def handleMessage (s : ComponentState) (u : ProgressUpdate) :
    ComponentState × Option CallbackCall :=
  if s.sourceOpen = false then (s, none)
  else
    let base : ComponentState :=
      { s with useRealProgress := true
               progress := u.progress
               currentStep := u.step
               message := u.message }
    if u.step = "complete" then
      ({ base with isComplete := true, sourceOpen := false },
       some CallbackCall.completeCall)
    else if u.step = "error" then
      ({ base with hasError := true, sourceOpen := false },
       some (CallbackCall.errorCall u.message))
    else (base, none)

/-- The SSE `onerror` handler (lines 124–133): it closes the source, and
schedules a reconnect (a `setTimeout(connect, 3000)`) only when the job
is not complete, has no error, and no real progress has been received. -/
def handleTransportError (s : ComponentState) : ComponentState :=
  if s.sourceOpen = false then s
  else
    { s with sourceOpen := false
             reconnectScheduled :=
               !s.isComplete && !s.hasError && !s.useRealProgress }

/-- Opening the `EventSource` (the `connect` closure, lines 92–134),
fired by the initial one-second timer or by a scheduled reconnect. After
a terminal event the handlers have closed the source and the parent
navigates away, so connections only happen pre-terminal. -/
def connect (s : ComponentState) : ComponentState :=
  if s.isComplete || s.hasError then s
  else { s with sourceOpen := true, reconnectScheduled := false }

/-- The external events driving the component: a fake-progress timer
firing, a backend SSE message, an SSE transport error, and a (re)connect
of the `EventSource`. -/
inductive Ev where
  | tick : Ev
  | msg : ProgressUpdate → Ev
  | transportError : Ev
  | connect : Ev
deriving Repr, DecidableEq

/-- One transition of the component. -/
def stepEv (s : ComponentState) : Ev → ComponentState
  | Ev.tick => fakeTick s
  | Ev.msg u => (handleMessage s u).1
  | Ev.transportError => handleTransportError s
  | Ev.connect => connect s

/-- The component state after a sequence of events, from mount. -/
def run (evs : List Ev) : ComponentState :=
  evs.foldl stepEv initialState

/-- The sequence of percent values the component displays along a run
(the `{progress}%` readout), including the initial 0%. -/
def progressTrace (evs : List Ev) : List Nat :=
  (evs.scanl stepEv initialState).map (fun s => s.progress)

/-- A state is terminal when the completion or the error flag is set. -/
def terminal (s : ComponentState) : Bool :=
  s.isComplete || s.hasError

/-- The failure box of the render (lines 264–274): shown exactly when
`hasError` is set, with the text "Analysis failed: {message}". -/
def renderErrorBox (s : ComponentState) : Option String :=
  if s.hasError then some ("Analysis failed: " ++ s.message) else none

/-- `true` when the event list contains no backend SSE message. -/
def noMsg (evs : List Ev) : Bool :=
  evs.all (fun e => match e with | Ev.msg _ => false | _ => true)

/-- `true` when no backend SSE message in the list carries percent 100. -/
def no100Msg (evs : List Ev) : Bool :=
  evs.all (fun e => match e with | Ev.msg u => u.progress ≠ 100 | _ => true)

/-- The number of fake-progress timer firings in an event list. -/
def countTicks (evs : List Ev) : Nat :=
  evs.countP (fun e => match e with | Ev.tick => true | _ => false)

/-- `true` when a list of percent values is non-decreasing. -/
def nondecreasing : List Nat → Bool
  | a :: b :: rest => a ≤ b && nondecreasing (b :: rest)
  | _ => true

/-- `true` when a list of percent values is strictly increasing. -/
def increasing : List Nat → Bool
  | a :: b :: rest => a < b && increasing (b :: rest)
  | _ => true

/-- `true` exactly when the event is a backend message whose percent is
below `p` (the only kind of event that can lower the display). -/
def isMsgBelow (e : Ev) (p : Nat) : Bool :=
  match e with
  | Ev.msg u => decide (u.progress < p)
  | _ => false

/-! ### Helper lemmas about the component transitions -/

/-- The fake-progress timer never touches the completion/error flags, the
current step, the connection, or the real-progress flag. -/
theorem fakeTick_fields (s : ComponentState) :
    (fakeTick s).isComplete = s.isComplete ∧
    (fakeTick s).hasError = s.hasError ∧
    (fakeTick s).useRealProgress = s.useRealProgress ∧
    (fakeTick s).sourceOpen = s.sourceOpen ∧
    (fakeTick s).currentStep = s.currentStep := by
  simp only [fakeTick]
  split
  · exact ⟨rfl, rfl, rfl, rfl, rfl⟩
  · split <;> exact ⟨rfl, rfl, rfl, rfl, rfl⟩

/-- The `onerror` handler only changes the connection status and the
reconnect timer. -/
theorem handleTransportError_fields (s : ComponentState) :
    (handleTransportError s).progress = s.progress ∧
    (handleTransportError s).useRealProgress = s.useRealProgress ∧
    (handleTransportError s).isComplete = s.isComplete ∧
    (handleTransportError s).hasError = s.hasError ∧
    (handleTransportError s).fakeStepIndex = s.fakeStepIndex ∧
    (handleTransportError s).message = s.message ∧
    (handleTransportError s).currentStep = s.currentStep := by
  simp only [handleTransportError]
  split <;> exact ⟨rfl, rfl, rfl, rfl, rfl, rfl, rfl⟩

/-- Opening the source only changes the connection status and the
reconnect timer. -/
theorem connect_fields (s : ComponentState) :
    (connect s).progress = s.progress ∧
    (connect s).useRealProgress = s.useRealProgress ∧
    (connect s).isComplete = s.isComplete ∧
    (connect s).hasError = s.hasError ∧
    (connect s).fakeStepIndex = s.fakeStepIndex ∧
    (connect s).message = s.message ∧
    (connect s).currentStep = s.currentStep := by
  simp only [connect]
  split <;> exact ⟨rfl, rfl, rfl, rfl, rfl, rfl, rfl⟩

/-- In a terminal state with the source closed, every event is a no-op:
the component is frozen after its terminal event. -/
theorem stepEv_frozen (s : ComponentState) (e : Ev) (ht : terminal s = true)
    (hc : s.sourceOpen = false) : stepEv s e = s := by
  have h1 : s.isComplete = true ∨ s.hasError = true := by
    simpa [terminal, Bool.or_eq_true] using ht
  cases e with
  | tick =>
      simp only [stepEv, fakeTick]
      rcases h1 with h | h <;> simp [h]
  | msg u => simp [stepEv, handleMessage, hc]
  | transportError => simp [stepEv, handleTransportError, hc]
  | connect =>
      simp only [stepEv, connect]
      rcases h1 with h | h <;> simp [h]

/-- A whole event sequence is a no-op from a terminal, closed state. -/
theorem foldl_frozen (evs : List Ev) (s : ComponentState)
    (ht : terminal s = true) (hc : s.sourceOpen = false) :
    evs.foldl stepEv s = s := by
  induction evs with
  | nil => rfl
  | cons e rest ih => rw [List.foldl_cons, stepEv_frozen s e ht hc]; exact ih

/-- Invariant: whenever the state is terminal, the source is closed (the
handlers that set a terminal flag close the source in the same step). -/
def sourceClosedAtTerminal (s : ComponentState) : Prop :=
  terminal s = true → s.sourceOpen = false

theorem sct_step (s : ComponentState) (e : Ev)
    (h : sourceClosedAtTerminal s) : sourceClosedAtTerminal (stepEv s e) := by
  cases e with
  | tick =>
      intro ht
      have hf := fakeTick_fields s
      simp only [stepEv] at ht ⊢
      rw [hf.2.2.2.1]
      apply h
      simpa [terminal, hf.1, hf.2.1] using ht
  | msg u =>
      intro ht
      simp only [stepEv, handleMessage] at ht ⊢
      by_cases ho : s.sourceOpen = false
      · simp only [if_pos ho] at ht ⊢
        exact ho
      · simp only [if_neg ho] at ht ⊢
        by_cases hcm : u.step = "complete"
        · simp [hcm]
        · by_cases her : u.step = "error"
          · simp [hcm, her]
          · simp only [if_neg hcm, if_neg her] at ht ⊢
            exact absurd (h (by simpa [terminal] using ht)) ho
  | transportError =>
      intro ht
      simp only [stepEv, handleTransportError] at ht ⊢
      split
      · next hcl => exact hcl
      · rfl
  | connect =>
      intro ht
      simp only [stepEv] at ht ⊢
      unfold connect at ht ⊢
      by_cases hterm : (s.isComplete || s.hasError) = true
      · rw [if_pos hterm] at ht ⊢
        exact h ht
      · rw [if_neg hterm] at ht ⊢
        exact absurd (by simpa [terminal] using ht) hterm

theorem sct_run (evs : List Ev) : sourceClosedAtTerminal (run evs) := by
  have aux : ∀ (l : List Ev) (s : ComponentState), sourceClosedAtTerminal s →
      sourceClosedAtTerminal (l.foldl stepEv s) := by
    intro l
    induction l with
    | nil => intro s hs; exact hs
    | cons e rest ih => intro s hs; exact ih _ (sct_step s e hs)
  exact aux evs initialState (by intro ht; simp [initialState, terminal] at ht)

/-- The real-progress flag is never unset by any event. -/
theorem useRealProgress_mono_step (s : ComponentState) (e : Ev)
    (h : s.useRealProgress = true) : (stepEv s e).useRealProgress = true := by
  cases e with
  | tick =>
      simp only [stepEv]
      rw [(fakeTick_fields s).2.2.1]; exact h
  | msg u =>
      simp only [stepEv, handleMessage]
      split
      · exact h
      · split
        · rfl
        · split <;> rfl
  | transportError =>
      simp only [stepEv]
      rw [(handleTransportError_fields s).2.1]; exact h
  | connect =>
      simp only [stepEv]
      rw [(connect_fields s).2.1]; exact h

theorem useRealProgress_mono_fold (evs : List Ev) (s : ComponentState)
    (h : s.useRealProgress = true) :
    (evs.foldl stepEv s).useRealProgress = true := by
  induction evs generalizing s with
  | nil => exact h
  | cons e rest ih =>
      rw [List.foldl_cons]
      exact ih _ (useRealProgress_mono_step s e h)

/-- Once real progress is active, the fake-progress timer is a no-op. -/
theorem fakeTick_noop_of_real (s : ComponentState)
    (h : s.useRealProgress = true) : fakeTick s = s := by
  simp [fakeTick, h]

/-- For every index inside the fake sequence: the lookup succeeds, its
percent is the next display value, and it is at least the current one
(the hard-coded sequence is increasing). -/
theorem fake_step_advance (i : Nat) (hi : i < 16) :
    ∃ st, FAKE_PROGRESS_STEPS.get? i = some st ∧
      st.progress = (0 :: fakePercents).getD (i + 1) 0 ∧
      (0 :: fakePercents).getD i 0 ≤ st.progress := by
  interval_cases i <;> exact ⟨_, rfl, by decide, by decide⟩

/-- Reachability invariant: while no backend event has been processed,
the display follows the simulated sequence exactly (the fake index is at
most 16 and the percent is the value the sequence assigns to it). -/
def simInv (s : ComponentState) : Prop :=
  s.useRealProgress = false →
    s.fakeStepIndex ≤ 16 ∧
    s.progress = (0 :: fakePercents).getD s.fakeStepIndex 0

theorem simInv_step (s : ComponentState) (e : Ev) (h : simInv s) :
    simInv (stepEv s e) := by
  cases e with
  | tick =>
      intro hr
      have hf := fakeTick_fields s
      simp only [stepEv] at hr ⊢
      have hr0 : s.useRealProgress = false := by rw [← hf.2.2.1]; exact hr
      obtain ⟨hi, hp⟩ := h hr0
      simp only [fakeTick]
      split
      · exact ⟨hi, hp⟩
      · split
        · next => exact ⟨hi, hp⟩
        · next st hget =>
            by_cases hlt : s.fakeStepIndex < 16
            · obtain ⟨st', hget', hprog, _⟩ := fake_step_advance _ hlt
              rw [hget'] at hget
              cases hget
              constructor
              · show s.fakeStepIndex + 1 ≤ 16
                omega
              · exact hprog
            · exfalso
              have h16 : s.fakeStepIndex = 16 := by omega
              rw [h16] at hget
              simp [FAKE_PROGRESS_STEPS] at hget
  | msg u =>
      intro hr
      simp only [stepEv, handleMessage] at hr ⊢
      by_cases ho : s.sourceOpen = false
      · simp only [if_pos ho] at hr ⊢
        exact h hr
      · simp only [if_neg ho] at hr ⊢
        by_cases hcm : u.step = "complete"
        · simp [hcm] at hr
        · by_cases her : u.step = "error"
          · simp [hcm, her] at hr
          · simp [hcm, her] at hr
  | transportError =>
      intro hr
      have hf := handleTransportError_fields s
      simp only [stepEv] at hr ⊢
      rw [hf.1, hf.2.2.2.2.1]
      exact h (by rw [← hf.2.1]; exact hr)
  | connect =>
      intro hr
      have hf := connect_fields s
      simp only [stepEv] at hr ⊢
      rw [hf.1, hf.2.2.2.2.1]
      exact h (by rw [← hf.2.1]; exact hr)

theorem simInv_run (evs : List Ev) : simInv (run evs) := by
  have aux : ∀ (l : List Ev) (s : ComponentState), simInv s →
      simInv (l.foldl stepEv s) := by
    intro l
    induction l with
    | nil => intro s hs; exact hs
    | cons e rest ih => intro s hs; exact ih _ (simInv_step s e hs)
  exact aux evs initialState (by intro _; exact ⟨by decide, by decide⟩)

/-- On a state satisfying the simulated-phase invariant, the only event
that can lower the displayed percent is a backend message carrying a
lower percent. -/
theorem stepEv_decrease (s : ComponentState) (e : Ev) (h : simInv s)
    (hd : (stepEv s e).progress < s.progress) :
    isMsgBelow e s.progress = true := by
  cases e with
  | tick =>
      exfalso
      simp only [stepEv, fakeTick] at hd
      by_cases hg : (s.useRealProgress || s.isComplete || s.hasError) = true
      · rw [if_pos hg] at hd
        omega
      · have hr : s.useRealProgress = false := by
          cases hu : s.useRealProgress
          · rfl
          · exact absurd (by simp [hu]) hg
        obtain ⟨hi, hp⟩ := h hr
        rw [if_neg hg] at hd
        by_cases hlt : s.fakeStepIndex < 16
        · obtain ⟨st', hget', _, hge⟩ := fake_step_advance _ hlt
          rw [hget'] at hd
          have hd' : st'.progress < s.progress := hd
          omega
        · have h16 : s.fakeStepIndex = 16 := by omega
          rw [h16] at hd
          have hnone : FAKE_PROGRESS_STEPS.get? 16 = none := by rfl
          rw [hnone] at hd
          exact lt_irrefl _ hd
  | msg u =>
      simp only [stepEv, handleMessage] at hd
      by_cases ho : s.sourceOpen = false
      · simp [if_pos ho] at hd
      · simp only [if_neg ho] at hd
        by_cases hcm : u.step = "complete"
        · simp only [if_pos hcm] at hd
          simp only [isMsgBelow, decide_eq_true_eq]
          exact hd
        · by_cases her : u.step = "error"
          · simp only [if_neg hcm, if_pos her] at hd
            simp only [isMsgBelow, decide_eq_true_eq]
            exact hd
          · simp only [if_neg hcm, if_neg her] at hd
            simp only [isMsgBelow, decide_eq_true_eq]
            exact hd
  | transportError =>
      exfalso
      simp only [stepEv] at hd
      rw [(handleTransportError_fields s).1] at hd
      omega
  | connect =>
      exfalso
      simp only [stepEv] at hd
      rw [(connect_fields s).1] at hd
      omega

/-- Invariant along runs that contain no backend event: all flags stay
down and the display follows the simulated sequence at the fake index. -/
def simOnly (s : ComponentState) : Prop :=
  s.useRealProgress = false ∧ s.isComplete = false ∧ s.hasError = false ∧
  s.fakeStepIndex ≤ 16 ∧
  s.progress = (0 :: fakePercents).getD s.fakeStepIndex 0

theorem simOnly_fold (evs : List Ev) (s : ComponentState)
    (hm : noMsg evs = true) (hs : simOnly s) :
    simOnly (evs.foldl stepEv s) ∧
      (evs.foldl stepEv s).fakeStepIndex =
        min (s.fakeStepIndex + countTicks evs) 16 := by
  induction evs generalizing s with
  | nil =>
      refine ⟨hs, ?_⟩
      obtain ⟨_, _, _, h4, _⟩ := hs
      simp only [List.foldl_nil, countTicks, List.countP_nil]
      omega
  | cons e rest ih =>
      obtain ⟨h1, h2, h3, h4, h5⟩ := hs
      have hmrest : noMsg rest = true := by
        simp only [noMsg, List.all_cons, Bool.and_eq_true] at hm
        exact hm.2
      rw [List.foldl_cons]
      cases e with
      | tick =>
          have hcount : countTicks (Ev.tick :: rest) = countTicks rest + 1 := by
            simp [countTicks, List.countP_cons]
          have hguard : (s.useRealProgress || s.isComplete || s.hasError) = false := by
            rw [h1, h2, h3]; rfl
          by_cases hlt : s.fakeStepIndex < 16
          · obtain ⟨st', hget', hprog, _⟩ := fake_step_advance _ hlt
            have hstep : stepEv s Ev.tick =
                { s with progress := st'.progress, message := st'.message,
                         fakeStepIndex := s.fakeStepIndex + 1 } := by
              simp only [stepEv, fakeTick]
              rw [if_neg (by rw [hguard]; simp), hget']
            have hs' : simOnly { s with progress := st'.progress,
                                        message := st'.message,
                                        fakeStepIndex := s.fakeStepIndex + 1 } :=
              ⟨h1, h2, h3, hlt, hprog⟩
            rw [hstep]
            obtain ⟨ihs, ihidx⟩ := ih _ hmrest hs'
            refine ⟨ihs, ?_⟩
            rw [ihidx, hcount]
            show min (s.fakeStepIndex + 1 + countTicks rest) 16 =
              min (s.fakeStepIndex + (countTicks rest + 1)) 16
            omega
          · have h16 : s.fakeStepIndex = 16 := by omega
            have hstep : stepEv s Ev.tick = s := by
              simp only [stepEv, fakeTick]
              rw [if_neg (by rw [hguard]; simp), h16]
              rfl
            rw [hstep]
            obtain ⟨ihs, ihidx⟩ := ih _ hmrest ⟨h1, h2, h3, h4, h5⟩
            refine ⟨ihs, ?_⟩
            rw [ihidx, hcount, h16]
            omega
      | msg u => exact absurd hm (by simp [noMsg])
      | transportError =>
          have hf := handleTransportError_fields s
          have hcount : countTicks (Ev.transportError :: rest) = countTicks rest := by
            simp [countTicks, List.countP_cons]
          have hs' : simOnly (handleTransportError s) :=
            ⟨by rw [hf.2.1]; exact h1, by rw [hf.2.2.1]; exact h2,
             by rw [hf.2.2.2.1]; exact h3, by rw [hf.2.2.2.2.1]; exact h4,
             by rw [hf.1, hf.2.2.2.2.1]; exact h5⟩
          obtain ⟨ihs, ihidx⟩ := ih _ hmrest hs'
          refine ⟨ihs, ?_⟩
          show (rest.foldl stepEv (handleTransportError s)).fakeStepIndex = _
          rw [ihidx, hf.2.2.2.2.1, hcount]
      | connect =>
          have hf := connect_fields s
          have hcount : countTicks (Ev.connect :: rest) = countTicks rest := by
            simp [countTicks, List.countP_cons]
          have hs' : simOnly (connect s) :=
            ⟨by rw [hf.2.1]; exact h1, by rw [hf.2.2.1]; exact h2,
             by rw [hf.2.2.2.1]; exact h3, by rw [hf.2.2.2.2.1]; exact h4,
             by rw [hf.1, hf.2.2.2.2.1]; exact h5⟩
          obtain ⟨ihs, ihidx⟩ := ih _ hmrest hs'
          refine ⟨ihs, ?_⟩
          show (rest.foldl stepEv (connect s)).fakeStepIndex = _
          rw [ihidx, hf.2.2.2.2.1, hcount]

/-- No entry of the hard-coded simulated sequence carries percent 100. -/
theorem fake_progress_ne_100 : ∀ st ∈ FAKE_PROGRESS_STEPS, st.progress ≠ 100 := by
  decide

theorem fakeTick_progress_ne (s : ComponentState) (hs : s.progress ≠ 100) :
    (fakeTick s).progress ≠ 100 := by
  simp only [fakeTick]
  split
  · exact hs
  · split
    · exact hs
    · next st hget => exact fake_progress_ne_100 st (List.get?_mem hget)

/-- If no backend event in a run carries percent 100, the display never
shows 100. -/
theorem progress_ne_100_fold (evs : List Ev) (s : ComponentState)
    (h : no100Msg evs = true) (hs : s.progress ≠ 100) :
    (evs.foldl stepEv s).progress ≠ 100 := by
  induction evs generalizing s with
  | nil => exact hs
  | cons e rest ih =>
      have hrest : no100Msg rest = true := by
        simp only [no100Msg, List.all_cons, Bool.and_eq_true] at h
        exact h.2
      rw [List.foldl_cons]
      apply ih _ hrest
      cases e with
      | tick => exact fakeTick_progress_ne s hs
      | msg u =>
          have hu : u.progress ≠ 100 := by
            simp only [no100Msg, List.all_cons, Bool.and_eq_true] at h
            simpa using h.1
          simp only [stepEv, handleMessage]
          split
          · exact hs
          · split
            · exact hu
            · split
              · exact hu
              · exact hu
      | transportError =>
          simp only [stepEv]
          rw [(handleTransportError_fields s).1]
          exact hs
      | connect =>
          simp only [stepEv]
          rw [(connect_fields s).1]
          exact hs

/-! ### Claim theorems about the progress observer -/

/-- C1, counterexample: the claim says the displayed percents (simulated
steps and backend events taken together) are non-decreasing over the
whole run. On the run `connect, tick, tick, msg(details,5%),
msg(complete,100%)` the backend percents 5, 100 are non-decreasing and
the run ends in the `complete` terminal event, yet the displayed
sequence is 0, 0, 5, 10, 5, 100: the first backend event lowers the
display from the simulated 10% to the real 5%, because `onmessage`
overwrites `progress` with `data.progress` unconditionally. -/
theorem c1_displayed_percent_not_monotone :
    nondecreasing [5, 100] = true
    ∧ (run [Ev.connect, Ev.tick, Ev.tick,
          Ev.msg ⟨"details", 5, "Analyzing match details", "t1"⟩,
          Ev.msg ⟨"complete", 100, "Analysis complete", "t2"⟩]).isComplete = true
    ∧ progressTrace [Ev.connect, Ev.tick, Ev.tick,
          Ev.msg ⟨"details", 5, "Analyzing match details", "t1"⟩,
          Ev.msg ⟨"complete", 100, "Analysis complete", "t2"⟩]
        = [0, 0, 5, 10, 5, 100]
    ∧ nondecreasing [0, 0, 5, 10, 5, 100] = false := by decide

/-- C1, amended: the displayed percent can decrease only at a backend
event whose percent is below the current display (the handover from
simulated to real progress); every other event keeps the display
non-decreasing. Moreover the run has at most one terminal transition:
once a terminal event is processed the component state is frozen, so no
second terminal event is ever processed. -/
theorem c1_amended_percent_regression (evs : List Ev) (e : Ev)
    (evs2 evs3 : List Ev)
    (hd : (stepEv (run evs) e).progress < (run evs).progress)
    (ht : terminal (run evs2) = true) :
    isMsgBelow e (run evs).progress = true
    ∧ run (evs2 ++ evs3) = run evs2 := by
  refine ⟨stepEv_decrease _ e (simInv_run evs) hd, ?_⟩
  show (evs2 ++ evs3).foldl stepEv initialState = run evs2
  rw [List.foldl_append]
  exact foldl_frozen evs3 _ ht (sct_run evs2 ht)

theorem c1_amended_percent_regression_witness :
    ((stepEv (run [Ev.connect, Ev.tick, Ev.tick])
        (Ev.msg ⟨"details", 5, "m", "t"⟩)).progress
      < (run [Ev.connect, Ev.tick, Ev.tick]).progress)
    ∧ terminal (run [Ev.connect, Ev.msg ⟨"complete", 100, "done", "t"⟩]) = true
    ∧ (isMsgBelow (Ev.msg ⟨"details", 5, "m", "t"⟩)
          (run [Ev.connect, Ev.tick, Ev.tick]).progress = true
        ∧ run ([Ev.connect, Ev.msg ⟨"complete", 100, "done", "t"⟩] ++ [Ev.tick])
            = run [Ev.connect, Ev.msg ⟨"complete", 100, "done", "t"⟩]) :=
  ⟨by decide, by decide,
    c1_amended_percent_regression [Ev.connect, Ev.tick, Ev.tick]
      (Ev.msg ⟨"details", 5, "m", "t"⟩)
      [Ev.connect, Ev.msg ⟨"complete", 100, "done", "t"⟩] [Ev.tick]
      (by decide) (by decide)⟩

/-- C2, counterexample: the claim says every transport error while the
job is not yet terminal leads to a reconnect. After the subscriber has
processed one backend event (`matches`, 20%, not terminal), a transport
error closes the source and schedules no reconnect, because `onerror`
reconnects only when `!useRealProgress` also holds. -/
theorem c2_reconnect_counterexample :
    terminal (run [Ev.connect,
        Ev.msg ⟨"matches", 20, "Fetching match history", "t"⟩]) = false
    ∧ (run [Ev.connect,
        Ev.msg ⟨"matches", 20, "Fetching match history", "t"⟩]).sourceOpen = true
    ∧ (handleTransportError (run [Ev.connect,
        Ev.msg ⟨"matches", 20, "Fetching match history", "t"⟩])).reconnectScheduled
        = false
    ∧ (handleTransportError (run [Ev.connect,
        Ev.msg ⟨"matches", 20, "Fetching match history", "t"⟩])).sourceOpen
        = false := by decide

/-- C2, amended: on a transport error with the source open, the
subscriber schedules a reconnect exactly while the job is not terminal
AND no backend event has been processed yet; once real progress has been
received, a transport error closes the subscription permanently with no
reconnect. -/
theorem c2_amended_reconnect (s : ComponentState) (hOpen : s.sourceOpen = true) :
    (terminal s = false → s.useRealProgress = false →
      (handleTransportError s).reconnectScheduled = true)
    ∧ (s.useRealProgress = true →
      (handleTransportError s).reconnectScheduled = false
      ∧ (handleTransportError s).sourceOpen = false) := by
  constructor
  · intro ht hr
    have hflags : s.isComplete = false ∧ s.hasError = false := by
      simpa [terminal] using ht
    simp only [handleTransportError]
    rw [if_neg (by rw [hOpen]; simp)]
    show (!s.isComplete && !s.hasError && !s.useRealProgress) = true
    rw [hflags.1, hflags.2, hr]
    rfl
  · intro hr
    simp only [handleTransportError]
    rw [if_neg (by rw [hOpen]; simp)]
    constructor
    · show (!s.isComplete && !s.hasError && !s.useRealProgress) = false
      rw [hr]
      simp
    · rfl

theorem c2_amended_reconnect_witness :
    (run [Ev.connect]).sourceOpen = true
    ∧ ((terminal (run [Ev.connect]) = false →
          (run [Ev.connect]).useRealProgress = false →
          (handleTransportError (run [Ev.connect])).reconnectScheduled = true)
       ∧ ((run [Ev.connect]).useRealProgress = true →
          (handleTransportError (run [Ev.connect])).reconnectScheduled = false
          ∧ (handleTransportError (run [Ev.connect])).sourceOpen = false)) :=
  ⟨by decide, c2_amended_reconnect (run [Ev.connect]) (by decide)⟩

/-- C4: whenever the subscriber processes an event with step "error"
(the terminal error event), it records the error, keeps the event's
message as the failure reason, fires the `onError` callback with that
message, and the render shows "Analysis failed: {message}"; the failure
is never silently swallowed. -/
theorem c4_error_event_surfaced (s : ComponentState) (u : ProgressUpdate)
    (hOpen : s.sourceOpen = true) (hstep : u.step = "error") :
    (handleMessage s u).1.hasError = true
    ∧ (handleMessage s u).1.currentStep = "error"
    ∧ (handleMessage s u).1.message = u.message
    ∧ (handleMessage s u).2 = some (CallbackCall.errorCall u.message)
    ∧ renderErrorBox (handleMessage s u).1
        = some ("Analysis failed: " ++ u.message) := by
  simp only [handleMessage]
  rw [if_neg (by rw [hOpen]; simp)]
  rw [if_neg (by rw [hstep]; decide), if_pos hstep]
  refine ⟨rfl, hstep, rfl, rfl, ?_⟩
  simp [renderErrorBox]

theorem c4_error_event_surfaced_witness :
    (run [Ev.connect]).sourceOpen = true
    ∧ ("error" : String) = "error"
    ∧ ((handleMessage (run [Ev.connect])
          ⟨"error", 40, "Retry budget exhausted", "t"⟩).1.hasError = true
      ∧ (handleMessage (run [Ev.connect])
          ⟨"error", 40, "Retry budget exhausted", "t"⟩).1.currentStep = "error"
      ∧ (handleMessage (run [Ev.connect])
          ⟨"error", 40, "Retry budget exhausted", "t"⟩).1.message
          = "Retry budget exhausted"
      ∧ (handleMessage (run [Ev.connect])
          ⟨"error", 40, "Retry budget exhausted", "t"⟩).2
          = some (CallbackCall.errorCall "Retry budget exhausted")
      ∧ renderErrorBox (handleMessage (run [Ev.connect])
          ⟨"error", 40, "Retry budget exhausted", "t"⟩).1
          = some ("Analysis failed: " ++ "Retry budget exhausted")) :=
  ⟨by decide, rfl,
    c4_error_event_surfaced (run [Ev.connect])
      ⟨"error", 40, "Retry budget exhausted", "t"⟩ (by decide) rfl⟩

/-- C9: in the absence of backend events the displayed percent after `n`
timer firings is the `n`-th value of the simulated sequence 5, 10, 15,
20, 30, 40, 50, 60, 70, 75, 80, 85, 88, 92, 95, 98 (holding at 98, the
value at index 16, from the 16th firing on); the sequence is strictly
increasing; and whenever no backend event of a run carries percent 100,
the display never shows 100 — so 100 is reached only through a backend
event carrying it. -/
theorem c9_simulated_progress (evs evs2 : List Ev)
    (h : noMsg evs = true) (h2 : no100Msg evs2 = true) :
    (run evs).progress = (0 :: fakePercents).getD (min (countTicks evs) 16) 0
    ∧ (run evs2).progress ≠ 100
    ∧ increasing (0 :: fakePercents) = true
    ∧ (0 :: fakePercents).getD 16 0 = 98 := by
  refine ⟨?_, progress_ne_100_fold evs2 initialState h2 (by decide),
    by decide, by decide⟩
  obtain ⟨⟨_, _, _, _, hp⟩, hidx⟩ :=
    simOnly_fold evs initialState h (by exact ⟨rfl, rfl, rfl, by decide, rfl⟩)
  show (evs.foldl stepEv initialState).progress = _
  rw [hp, hidx]
  show (0 :: fakePercents).getD (min (0 + countTicks evs) 16) 0 = _
  rw [Nat.zero_add]

theorem c9_simulated_progress_witness :
    noMsg [Ev.connect, Ev.tick, Ev.tick, Ev.transportError, Ev.tick] = true
    ∧ no100Msg [Ev.connect, Ev.tick, Ev.msg ⟨"matches", 20, "m", "t"⟩] = true
    ∧ ((run [Ev.connect, Ev.tick, Ev.tick, Ev.transportError, Ev.tick]).progress
        = (0 :: fakePercents).getD
            (min (countTicks [Ev.connect, Ev.tick, Ev.tick, Ev.transportError,
              Ev.tick]) 16) 0
      ∧ (run [Ev.connect, Ev.tick, Ev.msg ⟨"matches", 20, "m", "t"⟩]).progress ≠ 100
      ∧ increasing (0 :: fakePercents) = true
      ∧ (0 :: fakePercents).getD 16 0 = 98) :=
  ⟨by decide, by decide,
    c9_simulated_progress
      [Ev.connect, Ev.tick, Ev.tick, Ev.transportError, Ev.tick]
      [Ev.connect, Ev.tick, Ev.msg ⟨"matches", 20, "m", "t"⟩]
      (by decide) (by decide)⟩

/-- C10: processing any backend event while the source is open sets the
real-progress flag, and from then on — whatever events follow — the
fake-progress timer is a no-op: it never again changes the displayed
step, percent, or message (the flag is never unset, and the timer effect
returns immediately when it is up). -/
theorem c10_fake_generator_disabled (s : ComponentState) (u : ProgressUpdate)
    (hOpen : s.sourceOpen = true) (evs : List Ev) :
    (handleMessage s u).1.useRealProgress = true
    ∧ fakeTick (evs.foldl stepEv (handleMessage s u).1)
        = evs.foldl stepEv (handleMessage s u).1 := by
  have hreal : (handleMessage s u).1.useRealProgress = true := by
    simp only [handleMessage]
    rw [if_neg (by rw [hOpen]; simp)]
    split
    · rfl
    · split <;> rfl
  exact ⟨hreal, fakeTick_noop_of_real _ (useRealProgress_mono_fold evs _ hreal)⟩

theorem c10_fake_generator_disabled_witness :
    (run [Ev.connect]).sourceOpen = true
    ∧ ((handleMessage (run [Ev.connect])
          ⟨"matches", 20, "m", "t"⟩).1.useRealProgress = true
      ∧ fakeTick ([Ev.tick, Ev.transportError, Ev.tick].foldl stepEv
            (handleMessage (run [Ev.connect]) ⟨"matches", 20, "m", "t"⟩).1)
          = [Ev.tick, Ev.transportError, Ev.tick].foldl stepEv
            (handleMessage (run [Ev.connect]) ⟨"matches", 20, "m", "t"⟩).1) :=
  ⟨by decide,
    c10_fake_generator_disabled (run [Ev.connect]) ⟨"matches", 20, "m", "t"⟩
      (by decide) [Ev.tick, Ev.transportError, Ev.tick]⟩

/-! ### Part 2: backend components modelled from the specification

The backend service code (Progress Broker, Quota Limiter, Adaptive
Backoff Limiter, Run-Scoped Memo Cache, the job-start endpoint) is not
part of the repository snapshot — only its documentation and its
frontend callers are — so these components are modelled from the
specification's contracts. -/

/-- One progress event as published by the orchestrator:
`{step, percent, message}`. -/
structure BrokerEvent where
  step : String
  percent : Nat
  message : String
deriving Repr, DecidableEq

/-- Modelled from the spec: the Progress Broker's per-job channel. The
broker keeps the full publish sequence (delivered, in order, to
subscribers attached at the time) and retains the single most recent
event so a newly attached subscriber immediately gets current state;
there is no replay buffer. -/
structure Channel where
  published : List BrokerEvent
  latest : Option BrokerEvent
deriving Repr, DecidableEq

/-- A channel with nothing published yet. -/
def emptyChannel : Channel := { published := [], latest := none }

/-- Modelled from the spec: `publish(job_id, event)` appends the event
to the publish sequence and replaces the retained latest event. -/
def publish (c : Channel) (e : BrokerEvent) : Channel :=
  { published := c.published ++ [e], latest := some e }

/-- Publishing a whole sequence of events in order. -/
def publishAll (c : Channel) (evs : List BrokerEvent) : Channel :=
  evs.foldl publish c

/-- A subscription: the list of events this subscriber has received,
oldest first. -/
structure Subscription where
  received : List BrokerEvent
deriving Repr, DecidableEq

/-- Modelled from the spec: `subscribe(job_id)` — a fresh subscriber
immediately receives the single retained latest event (when some event
was already published) and nothing else: no earlier events are
replayed. -/
def subscribe (c : Channel) : Subscription :=
  { received := match c.latest with | none => [] | some e => [e] }

/-- Delivery of one subsequently published event to an attached
subscriber (broadcast in publish order). -/
def deliver (sub : Subscription) (e : BrokerEvent) : Subscription :=
  { received := sub.received ++ [e] }

/-- The broker's retained latest event is always the last published. -/
theorem publishAll_latest (pre : List BrokerEvent) (e : BrokerEvent)
    (c : Channel) : (publishAll c (pre ++ [e])).latest = some e := by
  simp only [publishAll, List.foldl_append, List.foldl_cons, List.foldl_nil]
  rfl

theorem deliver_foldl (post : List BrokerEvent) (acc : List BrokerEvent) :
    (post.foldl deliver { received := acc }).received = acc ++ post := by
  induction post generalizing acc with
  | nil => simp
  | cons e rest ih =>
      rw [List.foldl_cons]
      show (rest.foldl deliver { received := acc ++ [e] }).received = _
      rw [ih]
      simp

/-- C3: for every job on which some events were already published, a
subscriber that attaches afterwards receives, as its very first event,
exactly the single most recent previously published event — no earlier
events are replayed — and then the events published after attachment, in
order. In particular, attaching after the job reached 55% immediately
yields the percent-55 event before any further events. -/
theorem c3_latest_event_replay (pre : List BrokerEvent) (e : BrokerEvent)
    (post : List BrokerEvent) :
    (post.foldl deliver (subscribe (publishAll emptyChannel (pre ++ [e])))).received
      = e :: post := by
  have hsub : subscribe (publishAll emptyChannel (pre ++ [e]))
      = { received := [e] } := by
    simp only [subscribe, publishAll_latest]
  rw [hsub]
  exact deliver_foldl post [e]

/-- Modelled from the spec: the job store behind the job-start endpoint.
`nextId` generates fresh opaque job identifiers; `results` holds, per
job identifier, the pipeline's final structured result once the
asynchronous pipeline has delivered it through the progress stream. -/
structure JobStore where
  nextId : Nat
  results : List (Nat × String)
deriving Repr, DecidableEq

/-- The `{job_id, status}` payload the job-start call returns. -/
structure StartResponse where
  job_id : Nat
  status : String
deriving Repr, DecidableEq

/-- Modelled from the spec: the job-start operation. It synchronously
returns `{job_id, status}` for a fresh job and registers the job as
started; it does not run the pipeline, so no result for any job is
produced by this call. -/
def startJob (st : JobStore) : StartResponse × JobStore :=
  ({ job_id := st.nextId, status := "started" },
   { st with nextId := st.nextId + 1 })

/-- Looking up the delivered result of a job. -/
def lookupResult (st : JobStore) (jid : Nat) : Option String :=
  (st.results.find? (fun p => p.1 = jid)).map (fun p => p.2)

/-- Modelled from the spec: the asynchronous pipeline delivering a job's
final result later, through the progress stream. -/
def deliverResult (st : JobStore) (jid : Nat) (payload : String) : JobStore :=
  { st with results := (jid, payload) :: st.results }

/-- C5: the job-start call synchronously returns `{job_id, status}` —
the caller always receives a job identifier — while the heavy pipeline
has not run: at return time the store holds no result for the returned
job (results are unchanged by the call), and the result for that job
exists only after the asynchronous pipeline later delivers it. -/
theorem c5_job_start_synchronous (st : JobStore) (payload : String)
    (hfresh : ∀ p ∈ st.results, p.1 < st.nextId) :
    (startJob st).1.job_id = st.nextId
    ∧ (startJob st).1.status = "started"
    ∧ (startJob st).2.results = st.results
    ∧ lookupResult (startJob st).2 (startJob st).1.job_id = none
    ∧ lookupResult (deliverResult (startJob st).2 (startJob st).1.job_id payload)
        (startJob st).1.job_id = some payload := by
  refine ⟨rfl, rfl, rfl, ?_, ?_⟩
  · simp only [lookupResult, startJob]
    rw [List.find?_eq_none.mpr]
    · rfl
    · intro p hp
      have := hfresh p hp
      simp only [decide_eq_true_eq]
      omega
  · simp [lookupResult, deliverResult, startJob]

theorem c5_job_start_synchronous_witness :
    (∀ p ∈ ({ nextId := 2, results := [(0, "r0"), (1, "r1")] } : JobStore).results,
      p.1 < ({ nextId := 2, results := [(0, "r0"), (1, "r1")] } : JobStore).nextId)
    ∧ ((startJob { nextId := 2, results := [(0, "r0"), (1, "r1")] }).1.job_id = 2
      ∧ (startJob { nextId := 2, results := [(0, "r0"), (1, "r1")] }).1.status
          = "started"
      ∧ (startJob { nextId := 2, results := [(0, "r0"), (1, "r1")] }).2.results
          = [(0, "r0"), (1, "r1")]
      ∧ lookupResult (startJob { nextId := 2, results := [(0, "r0"), (1, "r1")] }).2
          (startJob { nextId := 2, results := [(0, "r0"), (1, "r1")] }).1.job_id
          = none
      ∧ lookupResult
          (deliverResult
            (startJob { nextId := 2, results := [(0, "r0"), (1, "r1")] }).2
            (startJob { nextId := 2, results := [(0, "r0"), (1, "r1")] }).1.job_id
            "final")
          (startJob { nextId := 2, results := [(0, "r0"), (1, "r1")] }).1.job_id
          = some "final") :=
  ⟨by decide,
    c5_job_start_synchronous { nextId := 2, results := [(0, "r0"), (1, "r1")] }
      "final" (by decide)⟩

/-- Modelled from the spec: configuration of the Quota Limiter's two
sliding windows — a duration and a request limit for each. -/
structure QuotaConfig where
  win1 : Nat
  limit1 : Nat
  win2 : Nat
  limit2 : Nat
deriving Repr, DecidableEq

/-- The number of recorded request timestamps falling within the
sliding window of duration `win` that ends at observation time `t`
(timestamps `s` with `t - win < s ≤ t`). -/
def windowCount (ts : List Nat) (win t : Nat) : Nat :=
  ts.countP (fun s => decide (s ≤ t ∧ t < s + win))

/-- Both windows have headroom for one more request at time `t`. -/
def hasHeadroom (cfg : QuotaConfig) (ts : List Nat) (t : Nat) : Bool :=
  decide (windowCount ts cfg.win1 t < cfg.limit1) &&
  decide (windowCount ts cfg.win2 t < cfg.limit2)

/-- Modelled from the spec: `reserve()` suspends until a slot is free
and then records one usage. The (possibly zero) wait is modelled by the
grant time `t`: a reservation is recorded at `t` only when both windows
have headroom there and time moves forward (`t` is not before any
already-recorded timestamp); otherwise no usage is recorded at `t`. -/
def reserveAt (cfg : QuotaConfig) (ts : List Nat) (t : Nat) :
    Option (List Nat) :=
  if hasHeadroom cfg ts t && ts.all (fun s => decide (s ≤ t)) then
    some (t :: ts)
  else none

/-- Running a sequence of granted reservations from an idle limiter. -/
def runReserves (cfg : QuotaConfig) (grants : List Nat) : Option (List Nat) :=
  grants.foldl (fun acc t => acc.bind (fun ts => reserveAt cfg ts t)) (some [])

/-- The quota invariant: at no observation time does either window's
count exceed its limit. -/
def quotaInv (cfg : QuotaConfig) (ts : List Nat) : Prop :=
  ∀ t, windowCount ts cfg.win1 t ≤ cfg.limit1 ∧
    windowCount ts cfg.win2 t ≤ cfg.limit2

/-- Moving the observation point later (past all recorded timestamps)
cannot increase a window's count. -/
theorem windowCount_le_of_all_le (ts : List Nat) (win t t' : Nat)
    (hall : ∀ s ∈ ts, s ≤ t) (htt : t ≤ t') :
    windowCount ts win t' ≤ windowCount ts win t := by
  apply List.countP_mono_left
  intro s hs hp
  simp only [decide_eq_true_eq] at hp ⊢
  exact ⟨hall s hs, by omega⟩

theorem windowCount_insert_le (ts : List Nat) (win lim t t' : Nat)
    (hall : ∀ s ∈ ts, s ≤ t)
    (hhead : windowCount ts win t < lim)
    (hold : windowCount ts win t' ≤ lim) :
    windowCount (t :: ts) win t' ≤ lim := by
  have hsplit : windowCount (t :: ts) win t' =
      windowCount ts win t' + (if t ≤ t' ∧ t' < t + win then 1 else 0) := by
    simp [windowCount, List.countP_cons]
  rw [hsplit]
  split_ifs with hc
  · have hle : windowCount ts win t' ≤ windowCount ts win t :=
      windowCount_le_of_all_le ts win t t' hall hc.1
    omega
  · omega

theorem reserveAt_preserves (cfg : QuotaConfig) (ts ts' : List Nat) (t : Nat)
    (h : reserveAt cfg ts t = some ts') (hinv : quotaInv cfg ts) :
    quotaInv cfg ts' := by
  simp only [reserveAt] at h
  split at h
  · next hcond =>
      cases h
      rw [Bool.and_eq_true] at hcond
      obtain ⟨hh, hall⟩ := hcond
      have hall' : ∀ s ∈ ts, s ≤ t := by
        intro s hs
        simpa using List.all_eq_true.mp hall s hs
      have hh' : windowCount ts cfg.win1 t < cfg.limit1 ∧
          windowCount ts cfg.win2 t < cfg.limit2 := by
        simpa [hasHeadroom] using hh
      intro t'
      exact ⟨windowCount_insert_le ts cfg.win1 cfg.limit1 t t' hall' hh'.1
               (hinv t').1,
             windowCount_insert_le ts cfg.win2 cfg.limit2 t t' hall' hh'.2
               (hinv t').2⟩
  · exact absurd h (by simp)

theorem reserves_fold_none (cfg : QuotaConfig) (grants : List Nat) :
    grants.foldl (fun acc t => acc.bind (fun ts => reserveAt cfg ts t)) none
      = none := by
  induction grants with
  | nil => rfl
  | cons g rest ih => simpa using ih

theorem reserves_fold_inv (cfg : QuotaConfig) (grants : List Nat)
    (ts0 ts : List Nat)
    (h : grants.foldl (fun acc t => acc.bind (fun l => reserveAt cfg l t))
          (some ts0) = some ts)
    (hinv : quotaInv cfg ts0) : quotaInv cfg ts := by
  induction grants generalizing ts0 with
  | nil =>
      simp only [List.foldl_nil, Option.some.injEq] at h
      rw [← h]
      exact hinv
  | cons g rest ih =>
      rw [List.foldl_cons] at h
      cases hr : reserveAt cfg ts0 g with
      | none =>
          rw [show (some ts0).bind (fun l => reserveAt cfg l g) = none by
                simp [hr]] at h
          rw [reserves_fold_none cfg rest] at h
          exact absurd h (by simp)
      | some ts1 =>
          rw [show (some ts0).bind (fun l => reserveAt cfg l g) = some ts1 by
                simp [hr]] at h
          exact ih ts1 h (reserveAt_preserves cfg ts0 ts1 g hr hinv)

/-- C6: for every sequence of granted `reserve()` calls, at no
observation time does the number of recorded timestamps falling within
either configured sliding window exceed that window's limit. -/
theorem c6_quota_window_invariant (cfg : QuotaConfig) (grants : List Nat)
    (ts : List Nat) (h : runReserves cfg grants = some ts) (t : Nat) :
    windowCount ts cfg.win1 t ≤ cfg.limit1
    ∧ windowCount ts cfg.win2 t ≤ cfg.limit2 :=
  reserves_fold_inv cfg grants [] ts h
    (fun _ => ⟨Nat.zero_le _, Nat.zero_le _⟩) t

theorem c6_quota_window_invariant_witness :
    runReserves ⟨1000, 2, 120000, 5⟩ [0, 100, 1000] = some [1000, 100, 0]
    ∧ (windowCount [1000, 100, 0] 1000 1000 ≤ 2
      ∧ windowCount [1000, 100, 0] 120000 1000 ≤ 5) :=
  ⟨by decide,
    c6_quota_window_invariant ⟨1000, 2, 120000, 5⟩ [0, 100, 1000]
      [1000, 100, 0] (by decide) 1000⟩

/-- Modelled from the spec: configuration of the Adaptive Backoff
Limiter — delay floor, delay ceiling and multiplicative growth factor
(delays in seconds, e.g. a 5-second floor and a 120-second ceiling). -/
structure BackoffConfig where
  floor : Nat
  ceiling : Nat
  factor : Nat
deriving Repr, DecidableEq

/-- Modelled from the spec: the Adaptive Backoff Limiter's state — the
current escalated delay and the consecutive-throttle counter. -/
structure BackoffState where
  delay : Nat
  throttles : Nat
deriving Repr, DecidableEq

/-- A freshly configured limiter sits at the floor delay. -/
def initBackoff (cfg : BackoffConfig) : BackoffState :=
  { delay := cfg.floor, throttles := 0 }

/-- Modelled from the spec: `recordResult(success, wasThrottled)` — a
throttling signal increases the delay multiplicatively, bounded by the
configured ceiling; a recorded success resets the delay to the floor;
any other outcome leaves the state unchanged. (Jitter perturbs the wait
at call time, not the stored delay.) -/
def recordResult (cfg : BackoffConfig) (s : BackoffState)
    (success wasThrottled : Bool) : BackoffState :=
  if wasThrottled then
    { delay := min (s.delay * cfg.factor) cfg.ceiling,
      throttles := s.throttles + 1 }
  else if success then
    { delay := cfg.floor, throttles := 0 }
  else s

/-- A sequence of `recordResult` calls, each a `(success, wasThrottled)`
pair, run from the initial state. -/
def runBackoff (cfg : BackoffConfig) (ops : List (Bool × Bool)) : BackoffState :=
  ops.foldl (fun st p => recordResult cfg st p.1 p.2) (initBackoff cfg)

theorem recordResult_delay_le (cfg : BackoffConfig) (s : BackoffState)
    (success wasThrottled : Bool) (hfc : cfg.floor ≤ cfg.ceiling)
    (hs : s.delay ≤ cfg.ceiling) :
    (recordResult cfg s success wasThrottled).delay ≤ cfg.ceiling := by
  simp only [recordResult]
  split
  · exact min_le_right _ _
  · split
    · exact hfc
    · exact hs

theorem runBackoff_delay_le (cfg : BackoffConfig) (ops : List (Bool × Bool))
    (hfc : cfg.floor ≤ cfg.ceiling) :
    (runBackoff cfg ops).delay ≤ cfg.ceiling := by
  have aux : ∀ (l : List (Bool × Bool)) (s : BackoffState),
      s.delay ≤ cfg.ceiling →
      (l.foldl (fun st p => recordResult cfg st p.1 p.2) s).delay ≤ cfg.ceiling := by
    intro l
    induction l with
    | nil => intro s hs; exact hs
    | cons p rest ih =>
        intro s hs
        exact ih _ (recordResult_delay_le cfg s p.1 p.2 hfc hs)
  exact aux ops (initBackoff cfg) hfc

/-- C7: the Adaptive Backoff Limiter's delay is non-decreasing across a
throttle signal, resets to the floor after one recorded success, and —
over any sequence of recorded results from the initial state — never
exceeds the configured ceiling. -/
theorem c7_backoff_invariants (cfg : BackoffConfig) (s : BackoffState)
    (success : Bool) (ops : List (Bool × Bool))
    (hfac : 1 ≤ cfg.factor) (hfc : cfg.floor ≤ cfg.ceiling)
    (hs : s.delay ≤ cfg.ceiling) :
    s.delay ≤ (recordResult cfg s success true).delay
    ∧ (recordResult cfg s true false).delay = cfg.floor
    ∧ (runBackoff cfg ops).delay ≤ cfg.ceiling := by
  refine ⟨?_, rfl, runBackoff_delay_le cfg ops hfc⟩
  show s.delay ≤ min (s.delay * cfg.factor) cfg.ceiling
  exact le_min (Nat.le_mul_of_pos_right _ hfac) hs

theorem c7_backoff_invariants_witness :
    1 ≤ (2 : Nat) ∧ (5 : Nat) ≤ 120 ∧ (20 : Nat) ≤ 120
    ∧ ((20 : Nat) ≤ (recordResult ⟨5, 120, 2⟩ ⟨20, 1⟩ true true).delay
      ∧ (recordResult ⟨5, 120, 2⟩ ⟨20, 1⟩ true false).delay = 5
      ∧ (runBackoff ⟨5, 120, 2⟩
          [(false, true), (false, true), (true, false)]).delay ≤ 120) :=
  ⟨by decide, by decide, by decide,
    c7_backoff_invariants ⟨5, 120, 2⟩ ⟨20, 1⟩ true
      [(false, true), (false, true), (true, false)]
      (by decide) (by decide) (by decide)⟩

/-- Modelled from the spec: one entry of the Run-Scoped Memo Cache — a
value computed for `(job_id, computation_name)`, tagged with the
identifier of the dataset it was computed for. -/
structure MemoEntry (α : Type) where
  job : Nat
  name : String
  datasetKey : String
  value : α
deriving Repr, DecidableEq

/-- The Run-Scoped Memo Cache: the list of recorded entries. -/
def MemoCache (α : Type) : Type := List (MemoEntry α)

/-- The entry recorded for `(job, name)`, when any. -/
def memoLookup {α : Type} (c : MemoCache α) (job : Nat) (name : String) :
    Option (MemoEntry α) :=
  c.find? (fun e => decide (e.job = job ∧ e.name = name))

/-- The outcome of one `getOrCompute` call: the value, the updated
cache, and whether the compute function was invoked. -/
structure MemoResult (α : Type) where
  value : α
  cache : MemoCache α
  invoked : Bool

/-- Modelled from the spec: `getOrCompute(job_id, name, datasetKey,
computeFn)`. The first call for `(job_id, name)` invokes `computeFn`
and stores the result tagged with `datasetKey`; a later call with the
same job, name and dataset key returns the stored value without
invoking the compute function; a mismatched dataset key is a
cache-invalidating error condition and recomputes (replacing the entry)
rather than returning stale cross-dataset data. -/
def getOrCompute {α : Type} (c : MemoCache α) (job : Nat) (name : String)
    (datasetKey : String) (computeFn : Unit → α) : MemoResult α :=
  match memoLookup c job name with
  | some e =>
      if e.datasetKey = datasetKey then
        { value := e.value, cache := c, invoked := false }
      else
        let v := computeFn ()
        { value := v,
          cache := { job := job, name := name, datasetKey := datasetKey,
                     value := v } ::
            c.filter (fun e2 => !decide (e2.job = job ∧ e2.name = name)),
          invoked := true }
  | none =>
      let v := computeFn ()
      { value := v,
        cache := { job := job, name := name, datasetKey := datasetKey,
                   value := v } :: c,
        invoked := true }

/-- C8: calling `getOrCompute` twice with the same `(job_id, name,
datasetKey)`, starting from a cache with no entry for `(job_id, name)`,
invokes the compute function exactly once: the first call invokes it,
the second call does not, and the second call returns the stored value
and leaves the cache unchanged. -/
theorem c8_memo_idempotent {α : Type} (c : MemoCache α) (job : Nat)
    (name datasetKey : String) (f : Unit → α)
    (h : memoLookup c job name = none) :
    (getOrCompute c job name datasetKey f).invoked = true
    ∧ (getOrCompute (getOrCompute c job name datasetKey f).cache
        job name datasetKey f).invoked = false
    ∧ (getOrCompute (getOrCompute c job name datasetKey f).cache
        job name datasetKey f).value
        = (getOrCompute c job name datasetKey f).value
    ∧ (getOrCompute (getOrCompute c job name datasetKey f).cache
        job name datasetKey f).cache
        = (getOrCompute c job name datasetKey f).cache := by
  have h1 : getOrCompute c job name datasetKey f =
      ⟨f (), (⟨job, name, datasetKey, f ()⟩ : MemoEntry α) :: c, true⟩ := by
    simp only [getOrCompute, h]
  have h2 : memoLookup ((⟨job, name, datasetKey, f ()⟩ : MemoEntry α) :: c)
      job name = some ⟨job, name, datasetKey, f ()⟩ := by
    simp [memoLookup, List.find?]
  rw [h1]
  dsimp only
  refine ⟨rfl, ?_⟩
  simp [getOrCompute, h2]

theorem c8_memo_idempotent_witness :
    memoLookup ([] : MemoCache Nat) 1 "aggregate_stats" = none
    ∧ ((getOrCompute ([] : MemoCache Nat) 1 "aggregate_stats" "puuid-123"
          (fun _ => 42)).invoked = true
      ∧ (getOrCompute (getOrCompute ([] : MemoCache Nat) 1 "aggregate_stats"
            "puuid-123" (fun _ => 42)).cache 1 "aggregate_stats" "puuid-123"
            (fun _ => 42)).invoked = false
      ∧ (getOrCompute (getOrCompute ([] : MemoCache Nat) 1 "aggregate_stats"
            "puuid-123" (fun _ => 42)).cache 1 "aggregate_stats" "puuid-123"
            (fun _ => 42)).value
          = (getOrCompute ([] : MemoCache Nat) 1 "aggregate_stats" "puuid-123"
            (fun _ => 42)).value
      ∧ (getOrCompute (getOrCompute ([] : MemoCache Nat) 1 "aggregate_stats"
            "puuid-123" (fun _ => 42)).cache 1 "aggregate_stats" "puuid-123"
            (fun _ => 42)).cache
          = (getOrCompute ([] : MemoCache Nat) 1 "aggregate_stats" "puuid-123"
            (fun _ => 42)).cache) :=
  ⟨rfl, c8_memo_idempotent [] 1 "aggregate_stats" "puuid-123" (fun _ => 42) rfl⟩

end RiftRewind
